import Mathlib

/-!
Verification of the multi-restic agent orchestration engine.

This file gives a shallow embedding of the pure computational core of the
repository (the script generator in `generate_script.py`, the cron scheduler
text transform in `schedule.py`, and the read-only probe sequence of the
`check` workflow in `__init__.py`), together with theorems settling the
frozen specification claims.

Strings of the Python source are modelled as `List Char`; Python's
`str.splitlines`, `str.rstrip`, `str.strip`, `str.split(":")` and
`":".join` are reproduced on that representation.
-/

/-- Characters stripped by Python `str.strip()` / `str.rstrip()`
(the characters for which `str.isspace()` holds). -/
def pyIsWS (c : Char) : Bool :=
  c = ' ' || c = '\t' || c = '\n' || c = '\r' || c = '\x0b' || c = '\x0c' ||
  c = '\x1c' || c = '\x1d' || c = '\x1e' || c = '\x1f' || c = '\x85' || c = '\xa0' ||
  c = '\u1680' || ('\u2000' ≤ c && c ≤ '\u200A') || c = '\u2028' || c = '\u2029' ||
  c = '\u202F' || c = '\u205F' || c = '\u3000'

/-- Characters on which Python `str.splitlines` breaks a line
(besides the two-character sequence CR LF, handled separately). -/
def isLineBreakChar (c : Char) : Bool :=
  c = '\n' || c = '\r' || c = '\x0b' || c = '\x0c' || c = '\x1c' || c = '\x1d' ||
  c = '\x1e' || c = '\x85' || c = '\u2028' || c = '\u2029'

/-- Python `s.rstrip()`. -/
def pyRstrip (s : List Char) : List Char := (s.reverse.dropWhile pyIsWS).reverse

/-- Python `s.lstrip()`. -/
def pyLstrip (s : List Char) : List Char := s.dropWhile pyIsWS

/-- Python `s.strip()`. -/
def pyStrip (s : List Char) : List Char := pyLstrip (pyRstrip s)

/-- Strips trailing newline characters only (used to state "equal modulo
trailing newline normalization"). -/
def dropTrailingNewlines (s : List Char) : List Char :=
  (s.reverse.dropWhile (fun c => c = '\n')).reverse

/-- Worker for `pySplitlines`: `acc` holds the characters of the current
line in reverse; `afterCR` records that the previous character was a CR
whose line break was already emitted, so that an immediately following LF
is consumed silently (a CR LF pair is a single line boundary). -/
def splitlinesAux : List Char → List Char → Bool → List (List Char)
  | [], acc, _ => if acc.isEmpty then [] else [acc.reverse]
  | c :: rest, acc, afterCR =>
    if afterCR && (c == '\n') then splitlinesAux rest acc false
    else if isLineBreakChar c then acc.reverse :: splitlinesAux rest [] (c == '\r')
    else splitlinesAux rest (c :: acc) false

/-- Python `s.splitlines()`. -/
def pySplitlines (s : List Char) : List (List Char) := splitlinesAux s [] false

/-- Joins lines appending `"\n"` to each one, as the accumulation
`new_crontab += line + "\n"` in `CronScheduler.remove_schedule` does. -/
def unlines : List (List Char) → List Char
  | [] => []
  | l :: rest => l ++ '\n' :: unlines rest

/-- Joins lines with a single `"\n"` separator (no trailing newline). -/
def joinNL : List (List Char) → List Char
  | [] => []
  | [l] => l
  | l :: rest => l ++ '\n' :: joinNL rest

/-- `true` when a string contains no line-break character, i.e. it is a
single line. -/
def lineFree (s : List Char) : Bool := s.all (fun c => !isLineBreakChar c)

/-- Python `needle in hay` substring containment. -/
def listContainsSub (needle : List Char) : List Char → Bool
  | [] => needle.isEmpty
  | c :: rest => needle.isPrefixOf (c :: rest) || listContainsSub needle rest

/-! ### `schedule.py`: the cron scheduler -/

/-- The substring `remove_schedule` scans for:
`"# -- multi-restic --" in line.strip()`. -/
def markerSub : List Char := "# -- multi-restic --".data

/-- The full marker comment line appended by `add_schedule`. -/
def markerLine : List Char := "# -- multi-restic -- (do not remove this comment!)".data

/-- The test `"# -- multi-restic --" in line.strip()` from
`CronScheduler.remove_schedule`. -/
def lineMatchesMarker (line : List Char) : Bool := listContainsSub markerSub (pyStrip line)

/-- The line scan of `CronScheduler.remove_schedule`: a line containing the
marker is dropped and sets `delete_next`; a line reached with `delete_next`
set is dropped; every other line is kept. -/
def removeLoop : List (List Char) → Bool → List (List Char)
  | [], _ => []
  | line :: rest, deleteNext =>
    if lineMatchesMarker line then removeLoop rest true
    else if deleteNext then removeLoop rest false
    else line :: removeLoop rest false

/-- The crontab text written back by `CronScheduler.remove_schedule`: the
kept lines are accumulated each with a trailing `"\n"`, the result is
`rstrip()`ped, and piping through `echo "..."` appends one final newline. -/
def remove_schedule (crontab : List Char) : List Char :=
  pyRstrip (unlines (removeLoop (pySplitlines crontab) false)) ++ ['\n']

/-- The cron job line of `CronScheduler.add_schedule`:
`0 2 * * * {install_location}/backup.sh >> {install_location}/backup.log 2>&1`. -/
def cronCommandFor (install_location : List Char) : List Char :=
  "0 2 * * * ".data ++ install_location ++ "/backup.sh >> ".data ++
    install_location ++ "/backup.log 2>&1".data

/-- The crontab text written back by `CronScheduler.add_schedule`: the
current contents, then the marker comment line, a newline, and the cron job
line; piping through `echo "..."` appends one final newline. -/
def add_schedule (install_location crontab : List Char) : List Char :=
  crontab ++ markerLine ++ '\n' :: (cronCommandFor install_location ++ ['\n'])

/-- `agent.get("install_location", "/opt/multi-restic")`'s default. -/
def defaultInstallLocation : List Char := "/opt/multi-restic".data

/-! ### `generate_script.py`: configuration model and script generator -/

/-- `RepositoryConfig` from `types.py` (the fields the generator reads). -/
structure RepositoryConfig where
  endpoint : List Char
  env_vars : List (List Char)
  forget_arguments : Option (List Char)
deriving DecidableEq

/-- `AgentConfig` from `types.py` (the fields the generator and the check
workflow read; connection fields are irrelevant to the claims). The
repository mapping is an insertion-ordered association list, as a Python
`dict` is. -/
structure AgentConfig where
  install_location : Option (List Char)
  backup_root : List Char
  to_backup : List (List Char)
  repositories : List (List Char × RepositoryConfig)
  pre_command : Option (List (List Char))
  post_command : Option (List (List Char))
deriving DecidableEq

/-- `agent.get("install_location", "/opt/multi-restic")`. -/
def installLocationOf (a : AgentConfig) : List Char :=
  a.install_location.getD defaultInstallLocation

/-- The external secret source read by `dotenv_values()`: an ordered map
from names to values, where a key may be present with value `None`
(a bare `NAME` line in the `.env` file). Passed explicitly to the
generators; only `generate_env_files` consults it. -/
abbrev EnvSource := List (List Char × Option (List Char))

/-- `env_values[k]` as a total function: `none` models a raised
`KeyError`, `some v` the stored value (itself possibly `None`). -/
def envLookup (env : EnvSource) (k : List Char) : Option (Option (List Char)) :=
  match env with
  | [] => none
  | (k2, v) :: rest => if k2 = k then some v else envLookup rest k

/-- Rendering of a dotenv value inside an f-string (`None` prints as
`"None"`). -/
def renderPyVal : Option (List Char) → List Char
  | none => "None".data
  | some v => v

/-- Python `s.split(":")` (always returns at least one piece). -/
def splitOnColon : List Char → List (List Char)
  | [] => [[]]
  | c :: rest =>
    match splitOnColon rest with
    | [] => [[]]
    | h :: t => if c = ':' then [] :: h :: t else (c :: h) :: t

/-- Python `sep.join(parts)`. -/
def joinSep (sep : List Char) : List (List Char) → List Char
  | [] => []
  | [p] => p
  | p :: rest => p ++ sep ++ joinSep sep rest

/-- Python `":".join(parts)`. -/
def joinColon (parts : List (List Char)) : List Char := joinSep [':'] parts

/-- One iteration of the `env_var` loop body of `generate_env_files`:
the text appended for a directive, or the key of the `KeyError` raised by
`env_values[rest[0]]` when the key is absent from the secret source. A
directive whose prefix is neither `plain` nor `env`, or an `env` directive
whose remainder has zero or more than two components, falls through the
`match` and contributes nothing. -/
def processDirective (env : EnvSource) (d : List Char) : Except (List Char) (List Char) :=
  match splitOnColon d with
  | [] => .ok []
  | tag :: rest =>
    if tag = "plain".data then
      .ok ("export ".data ++ joinColon rest ++ ['\n'])
    else if tag = "env".data then
      match rest with
      | [src] =>
        match envLookup env src with
        | none => .error src
        | some v => .ok ("export ".data ++ src ++ '=' :: (renderPyVal v ++ ['\n']))
      | [src, dst] =>
        match envLookup env src with
        | none => .error src
        | some v => .ok ("export ".data ++ dst ++ '=' :: (renderPyVal v ++ ['\n']))
      | _ => .ok []
    else .ok []

/-- The two header lines `generate_env_files` starts each secret file with. -/
def repoFileHeader (repo_name : List Char) (repo : RepositoryConfig) : List Char :=
  "# Environment variables for repository ".data ++ repo_name ++
    '\n' :: ("export RESTIC_REPOSITORY=".data ++ repo.endpoint ++ ['\n'])

/-- The export lines contributed by a repository's `env_vars` list, in
declared order; errors abort the whole generation as an uncaught
`KeyError` does. -/
def buildEnvLines (env : EnvSource) : List (List Char) → Except (List Char) (List Char)
  | [] => .ok []
  | d :: rest =>
    match processDirective env d with
    | .error e => .error e
    | .ok line =>
      match buildEnvLines env rest with
      | .error e => .error e
      | .ok t => .ok (line ++ t)

/-- The full secret-file text for one repository. -/
def generateRepoEnvFile (env : EnvSource) (repo_name : List Char)
    (repo : RepositoryConfig) : Except (List Char) (List Char) :=
  match buildEnvLines env repo.env_vars with
  | .error e => .error e
  | .ok t => .ok (repoFileHeader repo_name repo ++ t)

/-- Worker for `generate_env_files`, iterating the repository mapping in
insertion order. -/
def genEnvFilesAux (env : EnvSource) :
    List (List Char × RepositoryConfig) → Except (List Char) (List (List Char × List Char))
  | [] => .ok []
  | (n, r) :: rest =>
    match generateRepoEnvFile env n r with
    | .error e => .error e
    | .ok content =>
      match genEnvFilesAux env rest with
      | .error e => .error e
      | .ok t => .ok ((n, content) :: t)

/-- `generate_env_files(agent)`: the mapping repository name → secret-file
text, or the key of the `KeyError` raised on the first `env:` directive
whose source key is absent from the secret source. -/
def generate_env_files (env : EnvSource) (a : AgentConfig) :
    Except (List Char) (List (List Char × List Char)) :=
  genEnvFilesAux env a.repositories

/-- Python `" ".join(parts)`. -/
def joinSpace (parts : List (List Char)) : List Char := joinSep [' '] parts

/-- Python `" && ".join(parts)`. -/
def joinAmpAmp (parts : List (List Char)) : List Char :=
  joinSep " && ".data parts

/-- Python truthiness of an optional string: `None` and `""` are falsy
(the guard `if repo.get("forget_arguments"):`). -/
def truthyStrOpt : Option (List Char) → Bool
  | none => false
  | some [] => false
  | some (_ :: _) => true

/-- Python truthiness of an optional list (the guards
`if agent.get("pre_command")` / `post_command`). -/
def pyCommandsJoin : Option (List (List Char)) → List Char
  | none => []
  | some [] => []
  | some (l :: rest) => joinAmpAmp (l :: rest)

/-- `" && ".join(agent.get("pre_command", [])) if agent.get("pre_command") else ""`. -/
def preCommandsStr (a : AgentConfig) : List Char := pyCommandsJoin a.pre_command

/-- Same for `post_command`. -/
def postCommandsStr (a : AgentConfig) : List Char := pyCommandsJoin a.post_command

/-- `generate_repository_script(agent, repo_name, repo)`: the labeled
repository block of the backup script, translated literally from the
f-string of the source. -/
def generate_repository_script (a : AgentConfig) (repo_name : List Char)
    (repo : RepositoryConfig) : List Char :=
  let base :=
    "# START ".data ++ repo_name ++ "\nsource ".data ++ installLocationOf a ++
      "/.env.".data ++ repo_name ++
      "\n\nif ! restic cat config >/dev/null 2>&1; then\n    # Restic automatically does `mkdir -p` if necessary\n    restic init\nfi\n\nrestic backup ".data ++
      joinSpace a.to_backup ++ ['\n']
  let withForget :=
    if truthyStrOpt repo.forget_arguments then
      base ++ "restic forget ".data ++ repo.forget_arguments.getD [] ++ " --prune\n".data
    else base
  withForget ++ "# END ".data ++ repo_name ++ ['\n']

/-- `generate_script(agent)`: the whole backup script, the template of the
source with its placeholders substituted (`$$PATH` renders as `$PATH`).
The generation timestamp is passed in as `date`. The ambient secret
source is passed in as `env` but never consulted — the script reaches
secrets only by `source`-ing the per-repository secret files; theorem
`c9_script_independent_of_secrets` makes this precise. -/
def generate_script (_env : EnvSource) (a : AgentConfig) (date : List Char) : List Char :=
  "#!/bin/bash -e\n# Generated on ".data ++ date ++ " by multi-restic\n\nexport PATH=".data ++
    installLocationOf a ++ ":$PATH\ncd ".data ++ a.backup_root ++
    "\n\n# Pre-backup commands\n".data ++ preCommandsStr a ++ "\n\n".data ++
    (a.repositories.map (fun p => generate_repository_script a p.1 p.2)).flatten ++
    "\n# Post-backup commands\n".data ++ postCommandsStr a ++ ['\n']

/-! ### Derived line-level descriptions of the generated script -/

/-- The lines of one repository block of the generated script, derived
from `generate_repository_script` (theorem `c4_script_blocks_amended`
proves the correspondence). -/
def scriptBlockLines (a : AgentConfig) (repo_name : List Char)
    (repo : RepositoryConfig) : List (List Char) :=
  ["# START ".data ++ repo_name,
   "source ".data ++ installLocationOf a ++ "/.env.".data ++ repo_name,
   [],
   "if ! restic cat config >/dev/null 2>&1; then".data,
   "    # Restic automatically does `mkdir -p` if necessary".data,
   "    restic init".data,
   "fi".data,
   [],
   "restic backup ".data ++ joinSpace a.to_backup] ++
  (if truthyStrOpt repo.forget_arguments then
     ["restic forget ".data ++ repo.forget_arguments.getD [] ++ " --prune".data]
   else []) ++
  ["# END ".data ++ repo_name]

/-- The lines of the generated script before the repository blocks. -/
def scriptHeaderLines (a : AgentConfig) (date : List Char) : List (List Char) :=
  ["#!/bin/bash -e".data,
   "# Generated on ".data ++ date ++ " by multi-restic".data,
   [],
   "export PATH=".data ++ installLocationOf a ++ ":$PATH".data,
   "cd ".data ++ a.backup_root,
   [],
   "# Pre-backup commands".data,
   preCommandsStr a,
   []]

/-- The lines of the generated script after the repository blocks. -/
def scriptFooterLines (a : AgentConfig) : List (List Char) :=
  [[], "# Post-backup commands".data, postCommandsStr a]

/-! ### Spec-side description of the export lines (for claim C6) -/

/-- Modelled from the spec: the per-directive export-line productions of
§4.1/§8 — `plain:<LITERAL>` emits `export <LITERAL>` with the literal
after the prefix taken verbatim (colons included), `env:SRC` emits
`export SRC=<resolved value>`, and `env:SRC:DST` emits
`export DST=<resolved value>`. Stated independently of the generator's
parse so that `c6_env_directive_lines` is a genuine refinement. -/
def specExportLine (env : EnvSource) : List Char → List Char
  | 'p' :: 'l' :: 'a' :: 'i' :: 'n' :: ':' :: lit => "export ".data ++ lit ++ ['\n']
  | 'e' :: 'n' :: 'v' :: ':' :: rest =>
    match splitOnColon rest with
    | [src] => "export ".data ++ src ++ '=' :: (renderPyVal ((envLookup env src).getD none) ++ ['\n'])
    | [src, dst] => "export ".data ++ dst ++ '=' :: (renderPyVal ((envLookup env src).getD none) ++ ['\n'])
    | _ => []
  | _ => []

/-- A directive of one of the three forms the spec describes, whose `env:`
source key (if any) resolves to a proper string in the secret source. -/
def wfResolvable (env : EnvSource) (d : List Char) : Bool :=
  match splitOnColon d with
  | [] => false
  | tag :: rest =>
    if tag = "plain".data then !rest.isEmpty
    else if tag = "env".data then
      match rest with
      | [src] => match envLookup env src with | some (some _) => true | _ => false
      | [src, _] => match envLookup env src with | some (some _) => true | _ => false
      | _ => false
    else false

/-- An `env:` directive whose source key is absent from the secret source
(the condition of claim C2). -/
def failingEnvDirective (env : EnvSource) (d : List Char) : Bool :=
  match splitOnColon d with
  | [] => false
  | tag :: rest =>
    if tag = "env".data then
      match rest with
      | [src] => (envLookup env src).isNone
      | [src, _] => (envLookup env src).isNone
      | _ => false
    else false

/-- A directive claim C10 says is silently skipped: prefix neither
`plain` nor `env`, or `env` with more than two components after it. -/
def skippedDirective (d : List Char) : Bool :=
  match splitOnColon d with
  | [] => false
  | tag :: rest =>
    if tag = "plain".data then false
    else if tag = "env".data then decide (2 < rest.length)
    else true

/-! ### The `check` workflow's read-only probes (`__init__.py`) -/

/-- The restic availability report of `check`, translated from lines
62–70 of `__init__.py`. `runOk c` models "remote command `c` exited 0".
Note both probes run `{install_location}/restic version`: the source
reuses the install-location command where its own log message says it is
probing the search path (`restic version`), which `install` does use. -/
inductive ResticReport where
  | foundPath
  | foundInstall
  | unavailable
deriving DecidableEq

/-- The branch structure of the `check` restic probe. -/
def checkResticReport (runOk : List Char → Bool) (install_location : List Char) :
    ResticReport :=
  if runOk (install_location ++ "/restic version".data) then .foundPath
  else if runOk (install_location ++ "/restic version".data) then .foundInstall
  else .unavailable

/-- The command the spec intends the first probe to run. -/
def pathProbeCommand : List Char := "restic version".data

/-- The sequence of remote commands `check` issues for one agent after a
successful connection, in program order: the install-marker `ls`, the
`crontab -l` probe, the restic probe (repeated once when the first
attempt fails), the `backup_root` existence test, and — only when the
root exists — one `test -e` per `to_backup` entry. -/
def checkAgentCommands (runOk : List Char → Bool) (a : AgentConfig) : List (List Char) :=
  let il := installLocationOf a
  let c1 := "ls ".data ++ il ++ "/backup.sh".data
  let c2 := "crontab -l".data
  let c3 := il ++ "/restic version".data
  let resticCmds := if runOk c3 then [c3] else [c3, c3]
  let c4 := "test -e ".data ++ a.backup_root
  let pathCmds :=
    if runOk c4 then
      a.to_backup.map (fun item => "test -e ".data ++ a.backup_root ++ '/' :: item)
    else []
  c1 :: c2 :: resticCmds ++ c4 :: pathCmds

/-- A remote-command oracle on which only the search-path probe
`restic version` succeeds (restic installed on `$PATH` but not inside the
install location). -/
def pathOnlyExec (cmd : List Char) : Bool := cmd == "restic version".data

/-- A remote-command oracle on which every command fails (in particular
the `backup_root` existence test). -/
def allFailExec (_cmd : List Char) : Bool := false

/-- The fleet-wide `check` loop: each agent is attempted independently;
a failed connection is recorded (the `except` branch logs it) and the
loop continues with the next agent. -/
def checkFleetCommands (connectOk : List Char → Bool) (runOk : List Char → Bool) :
    List (List Char × AgentConfig) → List (List Char × Option (List (List Char)))
  | [] => []
  | (name, a) :: rest =>
    (name, if connectOk name then some (checkAgentCommands runOk a) else none) ::
      checkFleetCommands connectOk runOk rest


/-- Right-to-left description of what `rstrip` does to a joined line
list: whitespace-only trailing lines disappear and the last surviving
line is itself `rstrip`ped (`pyRstrip_unlines` proves the
correspondence). -/
def rstripLineList : List (List Char) → List (List Char)
  | [] => []
  | l :: rest =>
    match rstripLineList rest with
    | [] => if pyRstrip l = [] then [] else [pyRstrip l]
    | r :: t => l :: r :: t

/-! ## Lemmas: Python string toolkit -/

theorem pyRstrip_eq_nil_iff {s : List Char} :
    pyRstrip s = [] ↔ ∀ c ∈ s, pyIsWS c := by
  simp [pyRstrip, List.dropWhile_eq_nil_iff]

theorem pyRstrip_append_allWS {A B : List Char} (h : ∀ c ∈ B, pyIsWS c) :
    pyRstrip (A ++ B) = pyRstrip A := by
  simp only [pyRstrip, List.reverse_append]
  rw [List.dropWhile_append_of_pos]
  simpa using h

theorem pyRstrip_append_of_ne_nil {A B : List Char} (h : pyRstrip B ≠ []) :
    pyRstrip (A ++ B) = A ++ pyRstrip B := by
  have hne : (B.reverse.dropWhile pyIsWS).isEmpty = false := by
    cases hx : B.reverse.dropWhile pyIsWS with
    | nil => exact absurd (by simp [pyRstrip, hx]) h
    | cons x t => rfl
  simp only [pyRstrip, List.reverse_append, List.dropWhile_append, hne]
  simp [pyRstrip]

theorem pyRstrip_idem (s : List Char) : pyRstrip (pyRstrip s) = pyRstrip s := by
  simp [pyRstrip, List.dropWhile_idempotent]

theorem pyRstrip_append_newline (s : List Char) :
    pyRstrip (s ++ ['\n']) = pyRstrip s := by
  apply pyRstrip_append_allWS
  intro c hc
  simp only [List.mem_singleton] at hc
  subst hc
  decide

theorem dropWhile_dropWhile_subset {p q : Char → Bool}
    (h : ∀ a, q a = true → p a = true) (l : List Char) :
    (l.dropWhile p).dropWhile q = l.dropWhile p := by
  cases hd : l.dropWhile p with
  | nil => rfl
  | cons x t =>
    have hx := List.head?_dropWhile_not p l
    rw [hd] at hx
    simp only [List.head?_cons] at hx
    have hqx : q x = false := by
      cases hq : q x
      · rfl
      · exact absurd (h x hq) (by simp [hx])
    simp [List.dropWhile_cons, hqx]

theorem dropTrailingNewlines_pyRstrip (s : List Char) :
    dropTrailingNewlines (pyRstrip s) = pyRstrip s := by
  simp only [dropTrailingNewlines, pyRstrip, List.reverse_reverse]
  rw [dropWhile_dropWhile_subset]
  intro a ha
  simp only [decide_eq_true_eq] at ha
  subst ha
  decide

theorem dropTrailingNewlines_append_newline (s : List Char) :
    dropTrailingNewlines (s ++ ['\n']) = dropTrailingNewlines s := by
  simp [dropTrailingNewlines, List.dropWhile_cons]

theorem pyStrip_pyRstrip (s : List Char) : pyStrip (pyRstrip s) = pyStrip s := by
  simp [pyStrip, pyRstrip_idem]

theorem lineMatchesMarker_pyRstrip (l : List Char) :
    lineMatchesMarker (pyRstrip l) = lineMatchesMarker l := by
  simp [lineMatchesMarker, pyStrip_pyRstrip]

theorem lineFree_append {a b : List Char} :
    lineFree (a ++ b) = (lineFree a && lineFree b) := by
  simp [lineFree]

theorem lineFree_pyRstrip {l : List Char} (h : lineFree l = true) :
    lineFree (pyRstrip l) = true := by
  simp only [lineFree, List.all_eq_true] at h ⊢
  intro c hc
  apply h
  have h1 : c ∈ l.reverse.dropWhile pyIsWS := by
    simpa [pyRstrip] using hc
  have h2 : c ∈ l.reverse := (List.dropWhile_sublist pyIsWS).mem h1
  simpa using h2

/-! ## Lemmas: splitlines / unlines -/

theorem splitlinesAux_nl (rest acc : List Char) :
    splitlinesAux ('\n' :: rest) acc false = acc.reverse :: splitlinesAux rest [] false := by
  have h1 : isLineBreakChar '\n' = true := by decide
  have h2 : ('\n' == '\r') = false := by decide
  simp [splitlinesAux, h1, h2]

theorem splitlinesAux_flat (c : Char) (rest acc : List Char) (h : isLineBreakChar c = false) :
    splitlinesAux (c :: rest) acc false = splitlinesAux rest (c :: acc) false := by
  simp [splitlinesAux, h]

theorem splitlinesAux_line (l : List Char) (hl : lineFree l = true) (rest acc : List Char) :
    splitlinesAux (l ++ '\n' :: rest) acc false =
      (acc.reverse ++ l) :: splitlinesAux rest [] false := by
  induction l generalizing acc with
  | nil => simpa using splitlinesAux_nl rest acc
  | cons c l2 ih =>
    simp only [lineFree, List.all_cons, Bool.and_eq_true, Bool.not_eq_true'] at hl
    have h1 : isLineBreakChar c = false := hl.1
    have h2 : lineFree l2 = true := by simp [lineFree, hl.2]
    rw [List.cons_append, splitlinesAux_flat c _ _ h1, ih h2]
    simp

theorem pySplitlines_unlines (L : List (List Char)) (h : ∀ l ∈ L, lineFree l = true) :
    pySplitlines (unlines L) = L := by
  induction L with
  | nil => rfl
  | cons l rest ih =>
    have h1 : lineFree l = true := h l (by simp)
    have h2 : ∀ x ∈ rest, lineFree x = true := fun x hx => h x (by simp [hx])
    show splitlinesAux (l ++ '\n' :: unlines rest) [] false = l :: rest
    rw [splitlinesAux_line l h1]
    simpa using ih h2

theorem pySplitlines_joinNL (L : List (List Char)) (hne : L ≠ [])
    (h : ∀ l ∈ L, lineFree l = true) :
    pySplitlines (joinNL L ++ ['\n']) = L := by
  induction L with
  | nil => exact absurd rfl hne
  | cons l rest ih =>
    cases rest with
    | nil =>
      have h1 : lineFree l = true := h l (by simp)
      show splitlinesAux (l ++ '\n' :: []) [] false = [l]
      rw [splitlinesAux_line l h1]
      rfl
    | cons l2 rest2 =>
      have h1 : lineFree l = true := h l (by simp)
      have h2 : ∀ x ∈ l2 :: rest2, lineFree x = true := fun x hx => h x (by simp [hx])
      have hj : joinNL (l :: l2 :: rest2) ++ ['\n'] =
          l ++ '\n' :: (joinNL (l2 :: rest2) ++ ['\n']) := by
        simp [joinNL]
      show splitlinesAux (joinNL (l :: l2 :: rest2) ++ ['\n']) [] false = l :: l2 :: rest2
      rw [hj, splitlinesAux_line l h1]
      have := ih (by simp) h2
      simpa [pySplitlines] using this

theorem splitlinesAux_lineFree :
    ∀ (s acc : List Char) (b : Bool), lineFree acc = true →
      ∀ l ∈ splitlinesAux s acc b, lineFree l = true := by
  intro s
  induction s with
  | nil =>
    intro acc b hacc l hl
    by_cases he : acc.isEmpty
    · simp [splitlinesAux, he] at hl
    · simp only [splitlinesAux, he, if_false, Bool.false_eq_true, List.mem_singleton] at hl
      subst hl
      simpa [lineFree] using hacc
  | cons c rest ih =>
    intro acc b hacc l hl
    simp only [splitlinesAux] at hl
    by_cases h1 : (b && (c == '\n')) = true
    · rw [if_pos h1] at hl
      exact ih acc false hacc l hl
    · rw [if_neg h1] at hl
      by_cases h2 : isLineBreakChar c = true
      · rw [if_pos h2] at hl
        rcases List.mem_cons.mp hl with h3 | h3
        · subst h3; simpa [lineFree] using hacc
        · exact ih [] (c == '\r') (by rfl) l h3
      · rw [if_neg h2] at hl
        have hacc2 : lineFree (c :: acc) = true := by
          simp only [Bool.not_eq_true] at h2
          simp [lineFree, h2, List.all_eq_true] at hacc ⊢
          exact hacc
        exact ih (c :: acc) false hacc2 l hl

theorem pySplitlines_lineFree (s : List Char) :
    ∀ l ∈ pySplitlines s, lineFree l = true :=
  splitlinesAux_lineFree s [] false (by rfl)

theorem unlines_append (A B : List (List Char)) :
    unlines (A ++ B) = unlines A ++ unlines B := by
  induction A with
  | nil => rfl
  | cons l rest ih => simp [unlines, ih]

theorem unlines_eq_joinNL (L : List (List Char)) (h : L ≠ []) :
    unlines L = joinNL L ++ ['\n'] := by
  induction L with
  | nil => exact absurd rfl h
  | cons l rest ih =>
    cases rest with
    | nil => rfl
    | cons l2 rest2 =>
      show l ++ '\n' :: unlines (l2 :: rest2) = joinNL (l :: l2 :: rest2) ++ ['\n']
      rw [ih (by simp)]
      simp [joinNL]

/-! ## Lemmas: the remove_schedule line scan -/

theorem removeLoop_of_no_match (L : List (List Char))
    (h : ∀ l ∈ L, lineMatchesMarker l = false) : removeLoop L false = L := by
  induction L with
  | nil => rfl
  | cons l rest ih =>
    have h1 : lineMatchesMarker l = false := h l (by simp)
    simp only [removeLoop, h1, if_false, Bool.false_eq_true]
    rw [ih (fun x hx => h x (by simp [hx]))]

theorem removeLoop_append_no_match (pre rest : List (List Char))
    (h : ∀ l ∈ pre, lineMatchesMarker l = false) :
    removeLoop (pre ++ rest) false = pre ++ removeLoop rest false := by
  induction pre with
  | nil => rfl
  | cons l pre2 ih =>
    have h1 : lineMatchesMarker l = false := h l (by simp)
    simp only [List.cons_append, removeLoop, h1, if_false, Bool.false_eq_true]
    simp only [List.append_eq]
    rw [ih (fun x hx => h x (by simp [hx]))]

theorem removeLoop_mem {L : List (List Char)} {b : Bool} {l : List Char}
    (h : l ∈ removeLoop L b) : l ∈ L ∧ lineMatchesMarker l = false := by
  induction L generalizing b with
  | nil => simp [removeLoop] at h
  | cons x rest ih =>
    simp only [removeLoop] at h
    by_cases h1 : lineMatchesMarker x = true
    · rw [if_pos h1] at h
      rcases ih h with ⟨h2, h3⟩
      exact ⟨by simp [h2], h3⟩
    · rw [if_neg h1] at h
      by_cases h2 : b = true
      · rw [if_pos h2] at h
        rcases ih h with ⟨h3, h4⟩
        exact ⟨by simp [h3], h4⟩
      · rw [if_neg h2] at h
        rcases List.mem_cons.mp h with h3 | h3
        · subst h3
          exact ⟨by simp, by simpa using h1⟩
        · rcases ih h3 with ⟨h4, h5⟩
          exact ⟨by simp [h4], h5⟩

theorem removeLoop_marker_pair (m j : List Char) (post : List (List Char))
    (hm : lineMatchesMarker m = true) (hj : lineMatchesMarker j = false)
    (hpost : ∀ l ∈ post, lineMatchesMarker l = false) :
    removeLoop (m :: j :: post) false = post := by
  simp only [removeLoop, hm, if_true, hj, if_false, Bool.false_eq_true, if_pos]
  exact removeLoop_of_no_match post hpost

theorem removeLoop_marker_tail (m c : List Char) (hm : lineMatchesMarker m = true) :
    removeLoop [m, c] false = [] := by
  simp only [removeLoop, hm, if_true]
  by_cases hc : lineMatchesMarker c = true
  · simp [hc]
  · simp [hc]

/-! ## Lemmas: rstrip of a joined line list -/

theorem rstripLineList_shape (K : List (List Char)) :
    rstripLineList K = [] ∨
      ∃ init z, rstripLineList K = init ++ [z] ∧ pyRstrip z = z ∧ z ≠ [] := by
  induction K with
  | nil => exact Or.inl rfl
  | cons l rest ih =>
    rcases ih with h | ⟨init, z, h1, h2, h3⟩
    · by_cases h2 : pyRstrip l = []
      · left
        simp [rstripLineList, h, h2]
      · right
        refine ⟨[], pyRstrip l, ?_, pyRstrip_idem l, h2⟩
        simp [rstripLineList, h, h2]
    · right
      refine ⟨l :: init, z, ?_, h2, h3⟩
      rcases hcase : rstripLineList rest with _ | ⟨r, t⟩
      · rw [hcase] at h1
        exact absurd h1.symm (by simp)
      · simp only [rstripLineList, hcase]
        rw [hcase] at h1
        rw [h1]
        simp

theorem rstripLineList_mem {K : List (List Char)} {l2 : List Char}
    (h : l2 ∈ rstripLineList K) : l2 ∈ K ∨ ∃ l ∈ K, l2 = pyRstrip l := by
  induction K with
  | nil => simp [rstripLineList] at h
  | cons l rest ih =>
    simp only [rstripLineList] at h
    rcases hcase : rstripLineList rest with _ | ⟨r, t⟩
    · rw [hcase] at h
      by_cases h2 : pyRstrip l = []
      · simp [h2] at h
      · rw [if_neg h2] at h
        simp only [List.mem_singleton] at h
        exact Or.inr ⟨l, by simp, h⟩
    · rw [hcase] at h
      rcases List.mem_cons.mp h with h3 | h3
      · exact Or.inl (by simp [h3])
      · rcases ih (by rw [hcase]; exact h3) with h4 | ⟨x, hx1, hx2⟩
        · exact Or.inl (by simp [h4])
        · exact Or.inr ⟨x, by simp [hx1], hx2⟩

theorem joinNL_ne_nil_rstrip (K : List (List Char)) (z : List Char)
    (hz1 : pyRstrip z = z) (hz2 : z ≠ []) :
    joinNL (K ++ [z]) ≠ [] ∧ pyRstrip (joinNL (K ++ [z])) = joinNL (K ++ [z]) := by
  induction K with
  | nil =>
    constructor
    · simpa [joinNL] using hz2
    · simpa [joinNL] using hz1
  | cons l rest ih =>
    have hne : rest ++ [z] ≠ [] := by simp
    have hcons : ∃ y t, rest ++ [z] = y :: t := by
      cases hc : rest ++ [z] with
      | nil => exact absurd hc hne
      | cons y t => exact ⟨y, t, rfl⟩
    rcases hcons with ⟨y, t, hyt⟩
    have hstep : joinNL ((l :: rest) ++ [z]) = l ++ '\n' :: joinNL (rest ++ [z]) := by
      simp only [List.cons_append, hyt, joinNL]
    rcases ih with ⟨ih1, ih2⟩
    constructor
    · rw [hstep]
      simp
    · rw [hstep]
      have hB : pyRstrip ('\n' :: joinNL (rest ++ [z])) = '\n' :: joinNL (rest ++ [z]) := by
        have := pyRstrip_append_of_ne_nil (A := ['\n']) (B := joinNL (rest ++ [z]))
          (by rw [ih2]; exact ih1)
        simpa [ih2] using this
      have := pyRstrip_append_of_ne_nil (A := l) (B := '\n' :: joinNL (rest ++ [z]))
        (by rw [hB]; simp)
      rw [this, hB]

theorem pyRstrip_unlines (K : List (List Char)) :
    pyRstrip (unlines K) = joinNL (rstripLineList K) := by
  induction K with
  | nil => rfl
  | cons l rest ih =>
    rcases hcase : rstripLineList rest with _ | ⟨r, t⟩
    · have hnil : pyRstrip (unlines rest) = [] := by rw [ih, hcase]; rfl
      have hws : ∀ c ∈ unlines rest, pyIsWS c := pyRstrip_eq_nil_iff.mp hnil
      have hstep : pyRstrip (unlines (l :: rest)) = pyRstrip l := by
        show pyRstrip (l ++ '\n' :: unlines rest) = pyRstrip l
        apply pyRstrip_append_allWS
        intro c hc
        rcases List.mem_cons.mp hc with h1 | h1
        · subst h1; decide
        · exact hws c h1
      rw [hstep]
      simp only [rstripLineList, hcase]
      by_cases h2 : pyRstrip l = []
      · simp [h2, joinNL]
      · simp [h2, joinNL]
    · have hne : pyRstrip (unlines rest) ≠ [] := by
        rw [ih, hcase]
        rcases rstripLineList_shape rest with h | ⟨init, z, h1, h2, h3⟩
        · rw [h] at hcase; simp at hcase
        · have heq : r :: t = init ++ [z] := by rw [← hcase, h1]
          rw [heq]
          exact (joinNL_ne_nil_rstrip init z h2 h3).1
      have hstep : pyRstrip (unlines (l :: rest)) = l ++ '\n' :: pyRstrip (unlines rest) := by
        show pyRstrip (l ++ '\n' :: unlines rest) = l ++ '\n' :: pyRstrip (unlines rest)
        have hB : pyRstrip ('\n' :: unlines rest) = '\n' :: pyRstrip (unlines rest) := by
          have := pyRstrip_append_of_ne_nil (A := ['\n']) (B := unlines rest) hne
          simpa using this
        have := pyRstrip_append_of_ne_nil (A := l) (B := '\n' :: unlines rest)
          (by rw [hB]; simp)
        rw [this, hB]
      rw [hstep, ih, hcase]
      simp only [rstripLineList, hcase, joinNL]

/-! ## Lemmas: remove_schedule normal form and fixed point -/

theorem remove_schedule_unlines (K : List (List Char))
    (h : ∀ l ∈ K, lineFree l = true ∧ lineMatchesMarker l = false) :
    remove_schedule (unlines K) = pyRstrip (unlines K) ++ ['\n'] := by
  unfold remove_schedule
  rw [pySplitlines_unlines K (fun l hl => (h l hl).1),
      removeLoop_of_no_match K (fun l hl => (h l hl).2)]

theorem remove_schedule_fixed (s : List Char) :
    remove_schedule (remove_schedule s) = remove_schedule s := by
  have hKprop : ∀ l ∈ removeLoop (pySplitlines s) false,
      lineFree l = true ∧ lineMatchesMarker l = false := by
    intro l hl
    rcases removeLoop_mem hl with ⟨h1, h2⟩
    exact ⟨pySplitlines_lineFree s l h1, h2⟩
  have hRS : remove_schedule s =
      joinNL (rstripLineList (removeLoop (pySplitlines s) false)) ++ ['\n'] := by
    show pyRstrip (unlines (removeLoop (pySplitlines s) false)) ++ ['\n'] = _
    rw [pyRstrip_unlines]
  rcases rstripLineList_shape (removeLoop (pySplitlines s) false) with hshape |
      ⟨init, z, h1, h2, h3⟩
  · rw [hRS, hshape]
    show remove_schedule ['\n'] = joinNL [] ++ ['\n']
    decide
  · have hKne : rstripLineList (removeLoop (pySplitlines s) false) ≠ [] := by
      rw [h1]; simp
    have hfree : ∀ l ∈ rstripLineList (removeLoop (pySplitlines s) false),
        lineFree l = true := by
      intro l hl
      rcases rstripLineList_mem hl with hmem | ⟨x, hx, hx2⟩
      · exact (hKprop l hmem).1
      · subst hx2; exact lineFree_pyRstrip (hKprop x hx).1
    have hnomatch : ∀ l ∈ rstripLineList (removeLoop (pySplitlines s) false),
        lineMatchesMarker l = false := by
      intro l hl
      rcases rstripLineList_mem hl with hmem | ⟨x, hx, hx2⟩
      · exact (hKprop l hmem).2
      · subst hx2; rw [lineMatchesMarker_pyRstrip]; exact (hKprop x hx).2
    rw [hRS]
    unfold remove_schedule
    rw [pySplitlines_joinNL _ hKne hfree,
        removeLoop_of_no_match _ hnomatch,
        unlines_eq_joinNL _ hKne,
        pyRstrip_append_newline]
    congr 1
    rw [h1]
    exact (joinNL_ne_nil_rstrip init z h2 h3).2

theorem lineFree_markerLine : lineFree markerLine = true := by decide

theorem lineFree_cronCommand {il : List Char} (h : lineFree il = true) :
    lineFree (cronCommandFor il) = true := by
  simp only [lineFree, List.all_eq_true, Bool.not_eq_true'] at h
  simp +decide [cronCommandFor, lineFree, List.all_append]
  exact h

/-! ## Claim C1 -/

/-- C1 (counterexample): the claim promises that on a crontab holding a
marker line followed by one job line, `remove_schedule` removes exactly
those two lines and keeps every other line byte-for-byte. On the crontab
`"x \n<marker>\n<job>\n"` the code instead writes back `"x\n"`: the kept
line `"x "` loses its trailing space to the final `rstrip()`, so the
byte-for-byte claim is false. -/
theorem c1_counterexample :
    remove_schedule ("x \n# -- multi-restic -- (do not remove this comment!)\n0 2 * * * cmd\n".data) =
        "x\n".data ∧
      "x\n".data ≠ "x \n".data := by
  constructor
  · decide
  · decide

/-- C1 (amended): on a crontab whose lines are genuine single lines with
exactly one marker line, followed by one non-marker job line,
`remove_schedule` drops exactly the marker line and its successor and
keeps every other line in original order — but the written-back text is
the kept lines joined with `"\n"`, with trailing whitespace stripped and
one final newline appended, rather than byte-for-byte; with no marker
line present, the same normalization is the only change; and calling
`remove_schedule` again on any output of `remove_schedule` is an exact
no-op. -/
theorem c1_remove_schedule_amended
    (pre post : List (List Char)) (mline jline : List Char)
    (hpre : ∀ l ∈ pre, lineFree l = true ∧ lineMatchesMarker l = false)
    (hpost : ∀ l ∈ post, lineFree l = true ∧ lineMatchesMarker l = false)
    (hm : lineFree mline = true) (hmm : lineMatchesMarker mline = true)
    (hj : lineFree jline = true) (hjm : lineMatchesMarker jline = false) :
    remove_schedule (unlines (pre ++ mline :: jline :: post)) =
        pyRstrip (unlines (pre ++ post)) ++ ['\n'] ∧
      remove_schedule (unlines (pre ++ post)) =
        pyRstrip (unlines (pre ++ post)) ++ ['\n'] ∧
      ∀ s, remove_schedule (remove_schedule s) = remove_schedule s := by
  refine ⟨?_, ?_, remove_schedule_fixed⟩
  · have hfree : ∀ l ∈ pre ++ mline :: jline :: post, lineFree l = true := by
      intro l hl
      rcases List.mem_append.mp hl with h | h
      · exact (hpre l h).1
      · rcases List.mem_cons.mp h with h2 | h2
        · subst h2; exact hm
        · rcases List.mem_cons.mp h2 with h3 | h3
          · subst h3; exact hj
          · exact (hpost l h3).1
    unfold remove_schedule
    rw [pySplitlines_unlines _ hfree,
        removeLoop_append_no_match pre _ (fun l hl => (hpre l hl).2),
        removeLoop_marker_pair mline jline post hmm hjm (fun l hl => (hpost l hl).2)]
  · exact remove_schedule_unlines _ (fun l hl => by
      rcases List.mem_append.mp hl with h | h
      · exact hpre l h
      · exact hpost l h)

/-- C1 (witness): the amended theorem applied to the concrete crontab
`"keep it\n<marker>\n<job>\ntail\n"`. -/
theorem c1_witness :
    lineMatchesMarker markerLine = true ∧
      (remove_schedule (unlines (["keep it".data] ++ markerLine :: "0 2 * * * j".data :: ["tail".data])) =
          pyRstrip (unlines (["keep it".data] ++ ["tail".data])) ++ ['\n'] ∧
        remove_schedule (unlines (["keep it".data] ++ ["tail".data])) =
          pyRstrip (unlines (["keep it".data] ++ ["tail".data])) ++ ['\n'] ∧
        ∀ s, remove_schedule (remove_schedule s) = remove_schedule s) :=
  ⟨by decide,
   c1_remove_schedule_amended ["keep it".data] ["tail".data] markerLine ("0 2 * * * j".data)
     (by decide) (by decide) (by decide) (by decide) (by decide) (by decide)⟩

/-! ## Claim C5 -/

/-- C5 (counterexample): the claim promises the add/remove round trip
restores any initial crontab text modulo trailing newline normalization.
For the initial text `"a"` (no final newline) the appended marker
comment is glued onto the `"a"` line, so `remove_schedule` deletes that
merged line together with the job line: the round trip returns `"\n"`
and the content `"a"` is lost entirely. -/
theorem c5_counterexample :
    dropTrailingNewlines (remove_schedule (add_schedule defaultInstallLocation ['a'])) ≠
      dropTrailingNewlines ['a'] := by decide

/-- C5 (amended): for an initial crontab consisting of whole lines (so it
is empty or ends in a newline), none of which contains the marker
substring, and whose trailing whitespace consists of newlines only,
`add_schedule` followed by `remove_schedule` restores the crontab modulo
trailing newline normalization. -/
theorem c5_add_remove_roundtrip_amended
    (il : List Char) (L : List (List Char))
    (hil : lineFree il = true)
    (hL : ∀ l ∈ L, lineFree l = true ∧ lineMatchesMarker l = false)
    (htrail : pyRstrip (unlines L) = dropTrailingNewlines (unlines L)) :
    dropTrailingNewlines (remove_schedule (add_schedule il (unlines L))) =
      dropTrailingNewlines (unlines L) := by
  have hadd : add_schedule il (unlines L) =
      unlines (L ++ [markerLine, cronCommandFor il]) := by
    rw [unlines_append]
    simp [add_schedule, unlines, List.append_assoc]
  have hfree : ∀ l ∈ L ++ [markerLine, cronCommandFor il], lineFree l = true := by
    intro l hl
    rcases List.mem_append.mp hl with h | h
    · exact (hL l h).1
    · rcases List.mem_cons.mp h with h2 | h2
      · subst h2; exact lineFree_markerLine
      · rcases List.mem_cons.mp h2 with h3 | h3
        · subst h3; exact lineFree_cronCommand hil
        · simp at h3
  unfold remove_schedule
  rw [hadd, pySplitlines_unlines _ hfree,
      removeLoop_append_no_match L _ (fun l hl => (hL l hl).2),
      removeLoop_marker_tail markerLine (cronCommandFor il) (by decide),
      List.append_nil, dropTrailingNewlines_append_newline,
      dropTrailingNewlines_pyRstrip, htrail]

/-- C5 (witness): the amended round trip applied to the concrete crontab
`"keep\n"` with the default install location. -/
theorem c5_witness :
    (lineFree defaultInstallLocation = true ∧
      pyRstrip (unlines ["keep".data]) = dropTrailingNewlines (unlines ["keep".data])) ∧
    dropTrailingNewlines (remove_schedule (add_schedule defaultInstallLocation (unlines ["keep".data]))) =
      dropTrailingNewlines (unlines ["keep".data]) :=
  ⟨⟨by decide, by decide⟩,
   c5_add_remove_roundtrip_amended defaultInstallLocation ["keep".data] (by decide)
     (by decide) (by decide)⟩

theorem splitOnColon_ne_nil (s : List Char) : splitOnColon s ≠ [] := by
  cases s with
  | nil => simp [splitOnColon]
  | cons c rest =>
    simp only [splitOnColon]
    rcases h : splitOnColon rest with _ | ⟨h1, t⟩
    · simp
    · by_cases hc : c = ':' <;> simp [hc]

theorem joinColon_splitOnColon (s : List Char) : joinColon (splitOnColon s) = s := by
  induction s with
  | nil => rfl
  | cons c rest ih =>
    rcases h : splitOnColon rest with _ | ⟨h1, t⟩
    · exact absurd h (splitOnColon_ne_nil rest)
    · rw [h] at ih
      simp only [splitOnColon, h]
      by_cases hc : c = ':'
      · subst hc
        rw [if_pos rfl]
        have he : joinColon ([] :: h1 :: t) = [] ++ [':'] ++ joinColon (h1 :: t) := rfl
        rw [he, ih]
        rfl
      · rw [if_neg hc]
        cases t with
        | nil =>
          have h2 : h1 = rest := ih
          show c :: h1 = c :: rest
          rw [h2]
        | cons x t2 =>
          have h2 : h1 ++ [':'] ++ joinColon (x :: t2) = rest := ih
          show (c :: h1) ++ [':'] ++ joinColon (x :: t2) = c :: rest
          rw [← h2]
          rfl

theorem splitOnColon_no_colon (s : List Char) : ∀ p ∈ splitOnColon s, ':' ∉ p := by
  induction s with
  | nil =>
    intro p hp
    simp only [splitOnColon, List.mem_singleton] at hp
    subst hp; simp
  | cons c rest ih =>
    intro p hp
    rcases h : splitOnColon rest with _ | ⟨h1, t⟩
    · exact absurd h (splitOnColon_ne_nil rest)
    · rw [h] at ih
      simp only [splitOnColon, h] at hp
      by_cases hc : c = ':'
      · rw [if_pos hc] at hp
        rcases List.mem_cons.mp hp with h2 | h2
        · subst h2; simp
        · exact ih p h2
      · rw [if_neg hc] at hp
        rcases List.mem_cons.mp hp with h2 | h2
        · subst h2
          intro hmem
          rcases List.mem_cons.mp hmem with h3 | h3
          · exact hc h3.symm
          · exact ih h1 (by simp) h3
        · exact ih p (by simp [h2])

theorem splitOnColon_of_no_colon {s : List Char} (h : ':' ∉ s) : splitOnColon s = [s] := by
  induction s with
  | nil => rfl
  | cons c rest ih =>
    have hc : ¬ c = ':' := fun he => h (by simp [he])
    have hr : ':' ∉ rest := fun hm => h (by simp [hm])
    simp only [splitOnColon, ih hr]
    rw [if_neg hc]

theorem splitOnColon_append {A X : List Char} (h : ':' ∉ A) :
    splitOnColon (A ++ ':' :: X) = A :: splitOnColon X := by
  induction A with
  | nil =>
    simp only [List.nil_append, splitOnColon]
    rcases hx : splitOnColon X with _ | ⟨h1, t⟩
    · exact absurd hx (splitOnColon_ne_nil X)
    · simp
  | cons c A2 ih =>
    have hc : ¬ c = ':' := fun he => h (by simp [he])
    have hA : ':' ∉ A2 := fun hm => h (by simp [hm])
    simp only [List.cons_append, splitOnColon, List.append_eq, ih hA]
    rw [if_neg hc]

theorem processDirective_wf {env : EnvSource} {d : List Char}
    (h : wfResolvable env d = true) :
    processDirective env d = .ok (specExportLine env d) := by
  rcases hs : splitOnColon d with _ | ⟨tag, rest⟩
  · exact absurd hs (splitOnColon_ne_nil d)
  · have hd : d = joinColon (tag :: rest) := by rw [← hs, joinColon_splitOnColon]
    simp only [wfResolvable, hs] at h
    simp only [processDirective, hs]
    by_cases h1 : tag = "plain".data
    · subst h1
      rw [if_pos rfl] at h ⊢
      rcases rest with _ | ⟨p0, rest2⟩
      · simp at h
      · have hd2 : d = "plain".data ++ ':' :: joinColon (p0 :: rest2) := by
          rw [hd]; rfl
        rw [hd2]
        rfl
    · rw [if_neg h1] at h ⊢
      by_cases h2 : tag = "env".data
      · subst h2
        rw [if_pos rfl] at h ⊢
        rcases rest with _ | ⟨src, rest2⟩
        · simp at h
        · have hsrcf : ':' ∉ src := splitOnColon_no_colon d src (by rw [hs]; simp)
          rcases rest2 with _ | ⟨dst, rest3⟩
          · -- env:SRC
            rcases hl : envLookup env src with _ | v
            · simp [hl] at h
            · rcases v with _ | v0
              · simp [hl] at h
              · simp only [hl]
                have hd2 : d = "env".data ++ ':' :: src := by rw [hd]; rfl
                rw [hd2]
                show _ = Except.ok (specExportLine env ('e' :: 'n' :: 'v' :: ':' :: src))
                have hred : specExportLine env ('e' :: 'n' :: 'v' :: ':' :: src) =
                    match splitOnColon src with
                    | [s0] => "export ".data ++ s0 ++ '=' ::
                        (renderPyVal ((envLookup env s0).getD none) ++ ['\n'])
                    | [s0, d0] => "export ".data ++ d0 ++ '=' ::
                        (renderPyVal ((envLookup env s0).getD none) ++ ['\n'])
                    | _ => [] := rfl
                rw [hred, splitOnColon_of_no_colon hsrcf]
                simp [hl]
          · rcases rest3 with _ | ⟨x, rest4⟩
            · -- env:SRC:DST
              have hdstf : ':' ∉ dst := splitOnColon_no_colon d dst (by rw [hs]; simp)
              rcases hl : envLookup env src with _ | v
              · simp [hl] at h
              · rcases v with _ | v0
                · simp [hl] at h
                · simp only [hl]
                  have hd2 : d = "env".data ++ ':' :: (src ++ ':' :: dst) := by
                    rw [hd]
                    simp [joinColon, joinSep]
                  rw [hd2]
                  show _ = Except.ok (specExportLine env ('e' :: 'n' :: 'v' :: ':' :: (src ++ ':' :: dst)))
                  have hred : specExportLine env ('e' :: 'n' :: 'v' :: ':' :: (src ++ ':' :: dst)) =
                      match splitOnColon (src ++ ':' :: dst) with
                      | [s0] => "export ".data ++ s0 ++ '=' ::
                          (renderPyVal ((envLookup env s0).getD none) ++ ['\n'])
                      | [s0, d0] => "export ".data ++ d0 ++ '=' ::
                          (renderPyVal ((envLookup env s0).getD none) ++ ['\n'])
                      | _ => [] := rfl
                  rw [hred, splitOnColon_append hsrcf, splitOnColon_of_no_colon hdstf]
                  simp [hl]
            · simp at h
      · rw [if_neg h2] at h
        simp at h

theorem processDirective_error {env : EnvSource} {d k : List Char}
    (h : processDirective env d = .error k) : envLookup env k = none := by
  rcases hs : splitOnColon d with _ | ⟨tag, rest⟩
  · exact absurd hs (splitOnColon_ne_nil d)
  · simp only [processDirective, hs] at h
    by_cases h1 : tag = "plain".data
    · simp [h1] at h
    · rw [if_neg h1] at h
      by_cases h2 : tag = "env".data
      · rw [if_pos h2] at h
        rcases rest with _ | ⟨src, rest2⟩
        · simp at h
        · rcases rest2 with _ | ⟨dst, rest3⟩
          · rcases hl : envLookup env src with _ | v
            · simp only [hl, Except.error.injEq] at h
              subst h; exact hl
            · simp [hl] at h
          · rcases rest3 with _ | ⟨x, rest4⟩
            · rcases hl : envLookup env src with _ | v
              · simp only [hl, Except.error.injEq] at h
                subst h; exact hl
              · simp [hl] at h
            · simp at h
      · rw [if_neg h2] at h
        simp at h

theorem processDirective_failing {env : EnvSource} {d : List Char}
    (h : failingEnvDirective env d = true) :
    ∃ k, processDirective env d = .error k := by
  rcases hs : splitOnColon d with _ | ⟨tag, rest⟩
  · exact absurd hs (splitOnColon_ne_nil d)
  · simp only [failingEnvDirective, hs] at h
    by_cases h2 : tag = "env".data
    · rw [if_pos h2] at h
      have h1 : ¬ tag = "plain".data := by subst h2; decide
      rcases rest with _ | ⟨src, rest2⟩
      · simp at h
      · rcases rest2 with _ | ⟨dst, rest3⟩
        · simp only [Option.isNone_iff_eq_none] at h
          refine ⟨src, ?_⟩
          simp [processDirective, hs, h1, h2, h]
        · rcases rest3 with _ | ⟨x, rest4⟩
          · simp only [Option.isNone_iff_eq_none] at h
            refine ⟨src, ?_⟩
            simp [processDirective, hs, h1, h2, h]
          · simp at h
    · rw [if_neg h2] at h
      simp at h

theorem buildEnvLines_error {env : EnvSource} {vs : List (List Char)} {k : List Char}
    (h : buildEnvLines env vs = .error k) : envLookup env k = none := by
  induction vs with
  | nil => simp [buildEnvLines] at h
  | cons d rest ih =>
    simp only [buildEnvLines] at h
    cases hp : processDirective env d with
    | error e =>
      rw [hp] at h
      simp only [Except.error.injEq] at h
      subst h
      exact processDirective_error hp
    | ok line =>
      rw [hp] at h
      cases hb : buildEnvLines env rest with
      | error e2 =>
        rw [hb] at h
        simp only [Except.error.injEq] at h
        subst h
        exact ih hb
      | ok t => rw [hb] at h; simp at h

theorem buildEnvLines_failing {env : EnvSource} {vs : List (List Char)}
    (h : ∃ d ∈ vs, failingEnvDirective env d = true) :
    ∃ k, buildEnvLines env vs = .error k := by
  induction vs with
  | nil => simp at h
  | cons d rest ih =>
    cases hp : processDirective env d with
    | error e => exact ⟨e, by simp [buildEnvLines, hp]⟩
    | ok line =>
      have hrest : ∃ d2 ∈ rest, failingEnvDirective env d2 = true := by
        rcases h with ⟨d2, hd2, hf⟩
        rcases List.mem_cons.mp hd2 with he | he
        · subst he
          rcases processDirective_failing hf with ⟨k, hk⟩
          rw [hp] at hk
          simp at hk
        · exact ⟨d2, he, hf⟩
      rcases ih hrest with ⟨k, hk⟩
      refine ⟨k, ?_⟩
      simp [buildEnvLines, hp, hk]

theorem generateRepoEnvFile_error {env : EnvSource} {n k : List Char}
    {r : RepositoryConfig} (h : generateRepoEnvFile env n r = .error k) :
    envLookup env k = none := by
  unfold generateRepoEnvFile at h
  cases hb : buildEnvLines env r.env_vars with
  | error e =>
    rw [hb] at h
    simp only [Except.error.injEq] at h
    subst h
    exact buildEnvLines_error hb
  | ok t => rw [hb] at h; simp at h

theorem generateRepoEnvFile_failing {env : EnvSource} {n : List Char}
    {r : RepositoryConfig} (h : ∃ d ∈ r.env_vars, failingEnvDirective env d = true) :
    ∃ k, generateRepoEnvFile env n r = .error k := by
  rcases buildEnvLines_failing h with ⟨k, hk⟩
  exact ⟨k, by simp [generateRepoEnvFile, hk]⟩

theorem genEnvFilesAux_error {env : EnvSource} {rs : List (List Char × RepositoryConfig)}
    {k : List Char} (h : genEnvFilesAux env rs = .error k) : envLookup env k = none := by
  induction rs with
  | nil => simp [genEnvFilesAux] at h
  | cons p rest ih =>
    obtain ⟨n, r⟩ := p
    simp only [genEnvFilesAux] at h
    cases hg : generateRepoEnvFile env n r with
    | error e =>
      rw [hg] at h
      simp only [Except.error.injEq] at h
      subst h
      exact generateRepoEnvFile_error hg
    | ok content =>
      rw [hg] at h
      cases ha : genEnvFilesAux env rest with
      | error e2 =>
        rw [ha] at h
        simp only [Except.error.injEq] at h
        subst h
        exact ih ha
      | ok t => rw [ha] at h; simp at h

theorem genEnvFilesAux_failing {env : EnvSource} {rs : List (List Char × RepositoryConfig)}
    (h : ∃ p ∈ rs, ∃ d ∈ p.2.env_vars, failingEnvDirective env d = true) :
    ∃ k, genEnvFilesAux env rs = .error k := by
  induction rs with
  | nil => rcases h with ⟨p, hp, _⟩; simp at hp
  | cons p rest ih =>
    obtain ⟨n, r⟩ := p
    cases hg : generateRepoEnvFile env n r with
    | error e => exact ⟨e, by simp [genEnvFilesAux, hg]⟩
    | ok content =>
      have hrest : ∃ p2 ∈ rest, ∃ d ∈ p2.2.env_vars, failingEnvDirective env d = true := by
        rcases h with ⟨p2, hp2, hf⟩
        rcases List.mem_cons.mp hp2 with he | he
        · subst he
          rcases generateRepoEnvFile_failing (n := n) hf with ⟨k, hk⟩
          rw [hg] at hk
          simp at hk
        · exact ⟨p2, he, hf⟩
      rcases ih hrest with ⟨k, hk⟩
      refine ⟨k, ?_⟩
      simp [genEnvFilesAux, hg, hk]

theorem buildEnvLines_wf {env : EnvSource} {vs : List (List Char)}
    (h : ∀ d ∈ vs, wfResolvable env d = true) :
    buildEnvLines env vs = .ok ((vs.map (specExportLine env)).flatten) := by
  induction vs with
  | nil => rfl
  | cons d rest ih =>
    have h1 := processDirective_wf (h d (by simp))
    have h2 := ih (fun x hx => h x (by simp [hx]))
    simp [buildEnvLines, h1, h2]

theorem buildEnvLines_skip {env : EnvSource} {d : List Char}
    (hd : processDirective env d = .ok []) (vs1 vs2 : List (List Char)) :
    buildEnvLines env (vs1 ++ d :: vs2) = buildEnvLines env (vs1 ++ vs2) := by
  induction vs1 with
  | nil =>
    cases hb : buildEnvLines env vs2 with
    | error e => simp [buildEnvLines, hd, hb]
    | ok t => simp [buildEnvLines, hd, hb]
  | cons x rest ih =>
    cases hp : processDirective env x with
    | error e => simp [buildEnvLines, hp]
    | ok line => simp [buildEnvLines, hp, ih]

/-- C2: an `env:SRC` or `env:SRC:DST` directive whose `SRC` is absent from
the external secret source makes `generate_env_files` surface an error
carrying the unresolved key (the uncaught `KeyError` of
`env_values[rest[0]]`): no secret-file mapping — and in particular no
`export SRC=` line with an empty value — is produced. -/
theorem c2_env_directive_unresolved_errors (env : EnvSource) (a : AgentConfig)
    (h : ∃ p ∈ a.repositories, ∃ d ∈ p.2.env_vars, failingEnvDirective env d = true) :
    ∃ k, generate_env_files env a = .error k ∧ envLookup env k = none := by
  rcases genEnvFilesAux_failing h with ⟨k, hk⟩
  exact ⟨k, hk, genEnvFilesAux_error hk⟩

/-- C2 (witness): a single repository with directive `env:K` and an empty
secret source. -/
theorem c2_witness :
    (∃ p ∈ (AgentConfig.mk none "/b".data [] [("r".data, ⟨"e".data, ["env:K".data], none⟩)] none none).repositories,
      ∃ d ∈ p.2.env_vars, failingEnvDirective [] d = true) ∧
    ∃ k, generate_env_files []
        (AgentConfig.mk none "/b".data [] [("r".data, ⟨"e".data, ["env:K".data], none⟩)] none none) =
        .error k ∧ envLookup [] k = none :=
  ⟨by decide,
   c2_env_directive_unresolved_errors []
     (AgentConfig.mk none "/b".data [] [("r".data, ⟨"e".data, ["env:K".data], none⟩)] none none)
     (by decide)⟩

/-- C6: for a repository whose `env_vars` directives all have one of the
three spec forms (`plain:<LITERAL>`, `env:SRC`, `env:SRC:DST`, with the
`env:` source keys resolving in the secret source), the generated secret
file is exactly the two header lines followed by one export line per
directive, in declared order, each matching the spec production:
`plain:A=B` gives `export A=B` (the literal after the prefix verbatim,
colons included), `env:SRC` gives `export SRC=<value>`, `env:SRC:DST`
gives `export DST=<value>`. -/
theorem c6_env_directive_lines (env : EnvSource) (repo_name : List Char)
    (r : RepositoryConfig) (hwf : ∀ d ∈ r.env_vars, wfResolvable env d = true) :
    generateRepoEnvFile env repo_name r =
      .ok (repoFileHeader repo_name r ++ (r.env_vars.map (specExportLine env)).flatten) := by
  simp [generateRepoEnvFile, buildEnvLines_wf hwf]

/-- C6 (witness): the three directive forms on a concrete repository,
with `K` bound to `V` in the secret source; the generated file is the
header plus `export A=B:C`, `export K=V`, `export D=V`. -/
theorem c6_witness :
    (∀ d ∈ ["plain:A=B:C".data, "env:K".data, "env:K:D".data],
        wfResolvable [("K".data, some "V".data)] d = true) ∧
    generateRepoEnvFile [("K".data, some "V".data)] "r".data
        ⟨"ep".data, ["plain:A=B:C".data, "env:K".data, "env:K:D".data], none⟩ =
      .ok (repoFileHeader "r".data ⟨"ep".data, ["plain:A=B:C".data, "env:K".data, "env:K:D".data], none⟩ ++
        ((["plain:A=B:C".data, "env:K".data, "env:K:D".data]).map
          (specExportLine [("K".data, some "V".data)])).flatten) :=
  ⟨by decide,
   c6_env_directive_lines [("K".data, some "V".data)] "r".data
     ⟨"ep".data, ["plain:A=B:C".data, "env:K".data, "env:K:D".data], none⟩ (by decide)⟩

/-- C10: a directive whose prefix is neither `plain` nor `env`, or an
`env:` directive with more than two colon-separated components after the
prefix, is silently skipped: it contributes no export line and raises no
error, and the generated secret file is the same as if the directive were
absent. -/
theorem c10_unknown_directives_skipped (env : EnvSource) (d : List Char)
    (hd : skippedDirective d = true) (n : List Char) (r : RepositoryConfig)
    (vs1 vs2 : List (List Char)) :
    processDirective env d = .ok [] ∧
      generateRepoEnvFile env n
          { r with env_vars := vs1 ++ d :: vs2 } =
        generateRepoEnvFile env n { r with env_vars := vs1 ++ vs2 } := by
  have hok : processDirective env d = .ok [] := by
    rcases hs : splitOnColon d with _ | ⟨tag, rest⟩
    · exact absurd hs (splitOnColon_ne_nil d)
    · simp only [skippedDirective, hs] at hd
      by_cases h1 : tag = "plain".data
      · simp [h1] at hd
      · rw [if_neg h1] at hd
        by_cases h2 : tag = "env".data
        · rw [if_pos h2] at hd
          simp only [decide_eq_true_eq] at hd
          rcases rest with _ | ⟨a1, rest2⟩
          · simp [processDirective, hs, h1, h2]
          · rcases rest2 with _ | ⟨a2, rest3⟩
            · simp at hd
            · rcases rest3 with _ | ⟨a3, rest4⟩
              · simp at hd
              · simp [processDirective, hs, h1, h2]
        · rw [if_neg h2] at hd
          simp [processDirective, hs, h1, h2]
  refine ⟨hok, ?_⟩
  simp only [generateRepoEnvFile, buildEnvLines_skip hok, repoFileHeader]

/-- C10 (witness): the directive `env:a:b:c` (three components after the
prefix) inserted between `plain:X=1` and `plain:Y=2` changes nothing. -/
theorem c10_witness :
    skippedDirective "env:a:b:c".data = true ∧
      (processDirective [] "env:a:b:c".data = .ok [] ∧
        generateRepoEnvFile [] "r".data
            { (⟨"ep".data, [], none⟩ : RepositoryConfig) with
                env_vars := ["plain:X=1".data] ++ "env:a:b:c".data :: ["plain:Y=2".data] } =
          generateRepoEnvFile [] "r".data
            { (⟨"ep".data, [], none⟩ : RepositoryConfig) with
                env_vars := ["plain:X=1".data] ++ ["plain:Y=2".data] }) :=
  ⟨by decide,
   c10_unknown_directives_skipped [] "env:a:b:c".data (by decide) "r".data
     ⟨"ep".data, [], none⟩ ["plain:X=1".data] ["plain:Y=2".data]⟩

/-! ## Lemmas: line structure of the generated script -/

set_option maxRecDepth 8000 in
theorem generate_repository_script_lines (a : AgentConfig) (n : List Char)
    (r : RepositoryConfig) :
    generate_repository_script a n r = unlines (scriptBlockLines a n r) := by
  cases hf : truthyStrOpt r.forget_arguments with
  | true =>
    simp [generate_repository_script, scriptBlockLines, hf, unlines, List.append_assoc]
  | false =>
    simp [generate_repository_script, scriptBlockLines, hf, unlines, List.append_assoc]

theorem unlines_flatten_map {α : Type} (f : α → List (List Char)) (l : List α) :
    (l.map (fun x => unlines (f x))).flatten = unlines (l.flatMap f) := by
  induction l with
  | nil => rfl
  | cons x rest ih => simp [unlines_append, ih]

set_option maxRecDepth 8000 in
theorem generate_script_lines (env : EnvSource) (a : AgentConfig) (date : List Char) :
    generate_script env a date =
      unlines (scriptHeaderLines a date ++
        a.repositories.flatMap (fun p => scriptBlockLines a p.1 p.2) ++
        scriptFooterLines a) := by
  rw [unlines_append, unlines_append, ← unlines_flatten_map]
  simp only [← generate_repository_script_lines]
  simp [generate_script, scriptHeaderLines, scriptFooterLines, unlines, List.append_assoc]

theorem lineFree_app {A B : List Char} (ha : lineFree A = true) (hb : lineFree B = true) :
    lineFree (A ++ B) = true := by
  rw [lineFree_append, ha, hb]
  rfl

/-! ## Claim C4 -/

/-- C4 (counterexample): the claim's "if and only if `forget_arguments`
is set" fails for a repository whose `forget_arguments` is present but
empty: Python truthiness makes `if repo.get("forget_arguments"):` skip
the retention step, so the block contains no `restic forget` line even
though the field is set. -/
theorem c4_counterexample :
    ((⟨"ep".data, [], some []⟩ : RepositoryConfig).forget_arguments ≠ none) ∧
      listContainsSub "restic forget".data
        (generate_repository_script (AgentConfig.mk none "/b".data [] [] none none)
          "r1".data ⟨"ep".data, [], some []⟩) = false := by
  constructor
  · decide
  · decide

/-- C4 (amended): for a configuration whose fields embedded in the script
contain no line-break characters, the generated script splits into lines
as: the fixed header lines, then — for every repository in declared
mapping order — a block whose first line is `# START <name>` and last
line is `# END <name>`, with the retention line `restic forget <args>
--prune` placed immediately after the `restic backup` line exactly when
`forget_arguments` is set to a non-empty string, and finally the footer
lines. -/
theorem c4_script_blocks_amended (env : EnvSource) (a : AgentConfig) (date : List Char)
    (h1 : lineFree date = true)
    (h2 : lineFree (installLocationOf a) = true)
    (h3 : lineFree a.backup_root = true)
    (h4 : lineFree (preCommandsStr a) = true)
    (h5 : lineFree (postCommandsStr a) = true)
    (h6 : lineFree (joinSpace a.to_backup) = true)
    (h7 : ∀ p ∈ a.repositories,
        lineFree p.1 = true ∧ lineFree (p.2.forget_arguments.getD []) = true) :
    pySplitlines (generate_script env a date) =
      scriptHeaderLines a date ++
        a.repositories.flatMap (fun p => scriptBlockLines a p.1 p.2) ++
        scriptFooterLines a := by
  rw [generate_script_lines]
  apply pySplitlines_unlines
  intro l hl
  rcases List.mem_append.mp hl with hmem | hfoot
  · rcases List.mem_append.mp hmem with hhead | hflat
    · simp only [scriptHeaderLines, List.mem_cons, List.not_mem_nil, or_false] at hhead
      rcases hhead with rfl | rfl | rfl | rfl | rfl | rfl | rfl | rfl | rfl
      · decide
      · exact lineFree_app (lineFree_app (by decide) h1) (by decide)
      · decide
      · exact lineFree_app (lineFree_app (by decide) h2) (by decide)
      · exact lineFree_app (by decide) h3
      · decide
      · decide
      · exact h4
      · decide
    · rcases List.mem_flatMap.mp hflat with ⟨p, hp, hlp⟩
      rcases h7 p hp with ⟨hn, hf⟩
      by_cases ht : truthyStrOpt p.2.forget_arguments = true
      · simp only [scriptBlockLines, ht, if_true, List.mem_append, List.mem_cons,
          List.not_mem_nil, or_false, List.mem_singleton] at hlp
        rcases hlp with ((rfl | rfl | rfl | rfl | rfl | rfl | rfl | rfl | rfl) | rfl) | rfl
        · exact lineFree_app (by decide) hn
        · exact lineFree_app (lineFree_app (lineFree_app (by decide) h2) (by decide)) hn
        · decide
        · decide
        · decide
        · decide
        · decide
        · decide
        · exact lineFree_app (by decide) h6
        · exact lineFree_app (lineFree_app (by decide) hf) (by decide)
        · exact lineFree_app (by decide) hn
      · simp only [scriptBlockLines, ht, if_false, Bool.false_eq_true, List.append_nil,
          List.mem_append, List.mem_cons, List.not_mem_nil, or_false,
          List.mem_singleton] at hlp
        rcases hlp with (rfl | rfl | rfl | rfl | rfl | rfl | rfl | rfl | rfl) | rfl
        · exact lineFree_app (by decide) hn
        · exact lineFree_app (lineFree_app (lineFree_app (by decide) h2) (by decide)) hn
        · decide
        · decide
        · decide
        · decide
        · decide
        · decide
        · exact lineFree_app (by decide) h6
        · exact lineFree_app (by decide) hn
  · simp only [scriptFooterLines, List.mem_cons, List.not_mem_nil, or_false] at hfoot
    rcases hfoot with rfl | rfl | rfl
    · decide
    · decide
    · exact h5

/-- C4 (witness): the §8 scenario — agent `a1` with repositories `r1`
(no retention) and `r2` (`forget_arguments="--keep-daily 7"`) — applied
to the amended theorem. -/
theorem c4_witness :
    (lineFree "D".data = true ∧
      lineFree (installLocationOf (AgentConfig.mk none "/b".data ["d1".data]
        [("r1".data, ⟨"e1".data, [], none⟩),
         ("r2".data, ⟨"e2".data, [], some "--keep-daily 7".data⟩)] none none)) = true ∧
      (∀ p ∈ (AgentConfig.mk none "/b".data ["d1".data]
          [("r1".data, ⟨"e1".data, [], none⟩),
           ("r2".data, ⟨"e2".data, [], some "--keep-daily 7".data⟩)] none none).repositories,
        lineFree p.1 = true ∧ lineFree (p.2.forget_arguments.getD []) = true)) ∧
    pySplitlines (generate_script [] (AgentConfig.mk none "/b".data ["d1".data]
        [("r1".data, ⟨"e1".data, [], none⟩),
         ("r2".data, ⟨"e2".data, [], some "--keep-daily 7".data⟩)] none none) "D".data) =
      scriptHeaderLines (AgentConfig.mk none "/b".data ["d1".data]
        [("r1".data, ⟨"e1".data, [], none⟩),
         ("r2".data, ⟨"e2".data, [], some "--keep-daily 7".data⟩)] none none) "D".data ++
      (AgentConfig.mk none "/b".data ["d1".data]
        [("r1".data, ⟨"e1".data, [], none⟩),
         ("r2".data, ⟨"e2".data, [], some "--keep-daily 7".data⟩)] none none).repositories.flatMap
        (fun p => scriptBlockLines (AgentConfig.mk none "/b".data ["d1".data]
          [("r1".data, ⟨"e1".data, [], none⟩),
           ("r2".data, ⟨"e2".data, [], some "--keep-daily 7".data⟩)] none none) p.1 p.2) ++
      scriptFooterLines (AgentConfig.mk none "/b".data ["d1".data]
        [("r1".data, ⟨"e1".data, [], none⟩),
         ("r2".data, ⟨"e2".data, [], some "--keep-daily 7".data⟩)] none none) :=
  ⟨⟨by decide, by decide, by decide⟩,
   c4_script_blocks_amended [] (AgentConfig.mk none "/b".data ["d1".data]
       [("r1".data, ⟨"e1".data, [], none⟩),
        ("r2".data, ⟨"e2".data, [], some "--keep-daily 7".data⟩)] none none) "D".data
     (by decide) (by decide) (by decide) (by decide) (by decide) (by decide) (by decide)⟩

/-! ## Claim C9 -/

theorem isPrefixOf_self_append (l t : List Char) : l.isPrefixOf (l ++ t) = true := by
  induction l with
  | nil => cases t <;> rfl
  | cons c rest ih => simp [List.isPrefixOf, ih]

theorem listContainsSub_here {needle hay : List Char} (h : needle.isPrefixOf hay = true) :
    listContainsSub needle hay = true := by
  cases hay with
  | nil =>
    cases needle with
    | nil => rfl
    | cons c t => simp [List.isPrefixOf] at h
  | cons c rest => simp [listContainsSub, h]

theorem listContainsSub_cons {needle hay : List Char} (c : Char)
    (h : listContainsSub needle hay = true) : listContainsSub needle (c :: hay) = true := by
  simp [listContainsSub, h]

theorem listContainsSub_infix (needle A B : List Char) :
    listContainsSub needle (A ++ (needle ++ B)) = true := by
  induction A with
  | nil => exact listContainsSub_here (isPrefixOf_self_append needle B)
  | cons c A2 ih => exact listContainsSub_cons c ih

theorem listContainsSub_unlines {l : List Char} {L : List (List Char)} (h : l ∈ L) :
    listContainsSub (l ++ ['\n']) (unlines L) = true := by
  rcases List.append_of_mem h with ⟨s, t, rfl⟩
  rw [unlines_append]
  have he : unlines (l :: t) = (l ++ ['\n']) ++ unlines t := by simp [unlines]
  rw [he]
  exact listContainsSub_infix _ _ _

/-- C9: the backup-script text never embeds secret-file content — it is a
function of the configuration and timestamp alone, so two generations
differing only in the secret source produce byte-identical scripts; and
the script reaches secrets only by `source`-ing the per-repository
secret file: for every configured repository the script contains the
line `source <install_location>/.env.<name>`. -/
theorem c9_script_independent_of_secrets :
    (∀ (env1 env2 : EnvSource) (a : AgentConfig) (date : List Char),
      generate_script env1 a date = generate_script env2 a date) ∧
    (∀ (env : EnvSource) (a : AgentConfig) (date : List Char)
        (p : List Char × RepositoryConfig), p ∈ a.repositories →
      listContainsSub
          (("source ".data ++ installLocationOf a ++ "/.env.".data ++ p.1) ++ ['\n'])
          (generate_script env a date) = true) := by
  constructor
  · intro env1 env2 a date
    rfl
  · intro env a date p hp
    rw [generate_script_lines]
    apply listContainsSub_unlines
    have hline : ("source ".data ++ installLocationOf a ++ "/.env.".data ++ p.1) ∈
        scriptBlockLines a p.1 p.2 := by
      simp [scriptBlockLines]
    simp only [List.mem_append]
    exact Or.inl (Or.inr (List.mem_flatMap.mpr ⟨p, hp, hline⟩))

/-- C9 (witness): the noninterference equation and the `source` line for
a concrete agent with one repository and two different secret sources. -/
theorem c9_witness :
    generate_script [("K".data, some "V1".data)]
        (AgentConfig.mk none "/b".data [] [("r1".data, ⟨"e1".data, [], none⟩)] none none) "D".data =
      generate_script [("K".data, some "V2".data)]
        (AgentConfig.mk none "/b".data [] [("r1".data, ⟨"e1".data, [], none⟩)] none none) "D".data ∧
    listContainsSub
        (("source ".data ++
          installLocationOf (AgentConfig.mk none "/b".data [] [("r1".data, ⟨"e1".data, [], none⟩)] none none) ++
          "/.env.".data ++ "r1".data) ++ ['\n'])
        (generate_script [("K".data, some "V1".data)]
          (AgentConfig.mk none "/b".data [] [("r1".data, ⟨"e1".data, [], none⟩)] none none) "D".data) = true :=
  ⟨c9_script_independent_of_secrets.1 [("K".data, some "V1".data)] [("K".data, some "V2".data)]
     (AgentConfig.mk none "/b".data [] [("r1".data, ⟨"e1".data, [], none⟩)] none none) "D".data,
   c9_script_independent_of_secrets.2 [("K".data, some "V1".data)]
     (AgentConfig.mk none "/b".data [] [("r1".data, ⟨"e1".data, [], none⟩)] none none) "D".data
     ("r1".data, ⟨"e1".data, [], none⟩) (by decide)⟩

/-! ## Claim C3 -/

/-- C3 (code bug): `check` claims to probe the search path and the
install location, reporting restic unavailable only when both fail. The
code's first probe runs `{install_location}/restic version` — the same
command as the second probe — while logging its success as "available in
PATH"; `install` (line 122) shows the intended first probe is
`restic version`. On a host where `restic version` succeeds but
`<install>/restic version` fails, `check` therefore reports restic
unavailable although the search-path probe the claim (and the code's own
log message) describes would succeed. -/
theorem c3_restic_probe_code_bug :
    pathOnlyExec pathProbeCommand = true ∧
      checkResticReport pathOnlyExec defaultInstallLocation = ResticReport.unavailable := by
  constructor
  · decide
  · decide

/-! ## Claim C8 -/

/-- C8: when the `backup_root` existence probe fails, `check` issues no
per-path `test -e` probe: the remote-command trace is identical to that
of the same agent with an empty `to_backup` list (the `continue` skips
the loop); and the fleet loop continues with the next agent. -/
theorem c8_backup_root_missing_skips_path_checks (runOk : List Char → Bool)
    (a : AgentConfig) (h : runOk ("test -e ".data ++ a.backup_root) = false) :
    checkAgentCommands runOk a = checkAgentCommands runOk { a with to_backup := [] } ∧
      ∀ (connectOk : List Char → Bool) (name : List Char)
          (rest : List (List Char × AgentConfig)),
        checkFleetCommands connectOk runOk ((name, a) :: rest) =
          (name, if connectOk name then some (checkAgentCommands runOk a) else none) ::
            checkFleetCommands connectOk runOk rest := by
  constructor
  · have h2 : runOk ('t' :: 'e' :: 's' :: 't' :: ' ' :: '-' :: 'e' :: ' ' :: a.backup_root) = false := h
    simp [checkAgentCommands, h2, installLocationOf]
  · intro connectOk name rest
    rfl

/-- C8 (witness): an agent whose `backup_root` probe fails on an oracle
where every remote command fails. -/
theorem c8_witness :
    allFailExec ("test -e ".data ++
        (AgentConfig.mk none "/data".data ["x".data] [] none none).backup_root) = false ∧
      (checkAgentCommands allFailExec (AgentConfig.mk none "/data".data ["x".data] [] none none) =
        checkAgentCommands allFailExec
          { AgentConfig.mk none "/data".data ["x".data] [] none none with to_backup := [] } ∧
      ∀ (connectOk : List Char → Bool) (name : List Char)
          (rest : List (List Char × AgentConfig)),
        checkFleetCommands connectOk allFailExec
            ((name, AgentConfig.mk none "/data".data ["x".data] [] none none) :: rest) =
          (name, if connectOk name then
            some (checkAgentCommands allFailExec
              (AgentConfig.mk none "/data".data ["x".data] [] none none)) else none) ::
            checkFleetCommands connectOk allFailExec rest) :=
  ⟨rfl, c8_backup_root_missing_skips_path_checks allFailExec
    (AgentConfig.mk none "/data".data ["x".data] [] none none) rfl⟩
